import Mathlib

/-
Verification of the godns resolution-and-promotion pipeline.

The definitions below are a shallow embedding of the core of the godns
repository: the DNS request handler (`HandleDNSRequest`), the answer
synthesizer (`RespondWithRecords`), the promotion policy (`updateMetric`),
and the persistent-store operations (`AddRecord`, `FetchRecords`,
`IncrementMetric`, `GetDomainHits`).  External collaborators (Redis,
Postgres, the miekg/dns codec, the Go standard library) are represented by
abstract environment functions or by small models that are documented at
their definitions.  Effects on the cache and the store are tracked as an
explicit trace so that temporal claims about which paths touch which
backend can be stated and proved.
-/

namespace GoDNS

/-- A DNS record as stored in the `dns_records` relation and in the
`model.Record` Go struct: domain, qtype, ttl (a Go `int`, hence `Int`),
and value. -/
structure Record where
  domain : String
  qtype : String
  ttl : Int
  value : String
deriving DecidableEq

/-- An IP address as returned by the external `net.ParseIP`: either a
4-byte IPv4 form or a 16-byte IPv6 form. -/
inductive IP where
  | v4 (a b c d : Nat)
  | v6 (bytes : List Nat)
deriving DecidableEq

/-- Modelled from the external Go `net.IP.To4`: the 4-byte form itself, or
the embedded IPv4 address of an IPv4-in-IPv6 address (ten zero bytes then
`0xff 0xff`), otherwise nothing. -/
def IP.to4 : IP → Option (Nat × Nat × Nat × Nat)
  | .v4 a b c d => some (a, b, c, d)
  | .v6 bs =>
    match bs with
    | [b0, b1, b2, b3, b4, b5, b6, b7, b8, b9, b10, b11, a, b, c, d] =>
      if b0 = 0 ∧ b1 = 0 ∧ b2 = 0 ∧ b3 = 0 ∧ b4 = 0 ∧ b5 = 0 ∧ b6 = 0 ∧ b7 = 0
          ∧ b8 = 0 ∧ b9 = 0 ∧ b10 = 255 ∧ b11 = 255 then
        some (a, b, c, d)
      else none
    | _ => none

/-- ASCII uppercasing of one character (`strings.ToUpper` acts
characterwise on ASCII input). -/
def upChar (c : Char) : Char :=
  if 97 ≤ c.toNat ∧ c.toNat ≤ 122 then Char.ofNat (c.toNat - 32) else c

/-- ASCII lowercasing of one character (`strings.ToLower` acts
characterwise on ASCII input). -/
def lowChar (c : Char) : Char :=
  if 65 ≤ c.toNat ∧ c.toNat ≤ 90 then Char.ofNat (c.toNat + 32) else c

/-- Modelled from Go `strings.ToUpper` restricted to ASCII. -/
def upper (s : String) : String := ⟨s.data.map upChar⟩

/-- Modelled from Go `strings.ToLower` restricted to ASCII. -/
def lower (s : String) : String := ⟨s.data.map lowChar⟩

/-- Modelled from Go `strings.EqualFold` restricted to ASCII: equality up
to case. -/
def eqFold (a b : String) : Bool := upper a == upper b

/-- Modelled from the external miekg/dns `Fqdn`: append a trailing dot
unless one is already present. -/
def fqdn (s : String) : String :=
  match s.data.getLast? with
  | some '.' => s
  | _ => ⟨s.data ++ ['.']⟩

/-- Go `strings.TrimSuffix(q.Name, ".")`: drop one trailing dot if
present. -/
def trimDot (s : String) : String :=
  match s.data.getLast? with
  | some '.' => ⟨s.data.dropLast⟩
  | _ => s

/-- Modelled from the external miekg/dns `TypeToString` table, restricted
to the codes relevant to this repository; a code outside the table maps to
the empty string (the Go map zero value). -/
def typeToString (t : Nat) : String :=
  if t = 1 then "A"
  else if t = 2 then "NS"
  else if t = 5 then "CNAME"
  else if t = 15 then "MX"
  else if t = 16 then "TXT"
  else if t = 28 then "AAAA"
  else if t = 255 then "ANY"
  else ""

/-- Go conversion `uint32(r.TTL)`: truncation of a Go `int` modulo 2^32. -/
def ttl32 (t : Int) : Nat := (t % (2 ^ 32 : Int)).toNat

/-- A protocol answer entry, one constructor per record type the
synthesizer supports. -/
inductive RR where
  | a (name : String) (ttl : Nat) (addr : Nat × Nat × Nat × Nat)
  | aaaa (name : String) (ttl : Nat) (addr : IP)
  | cname (name : String) (ttl : Nat) (target : String)
  | txt (name : String) (ttl : Nat) (chunks : List String)
deriving DecidableEq

/-- Owner name carried by an answer entry (`Hdr.Name`). -/
def RR.ownerName : RR → String
  | .a n _ _ => n
  | .aaaa n _ _ => n
  | .cname n _ _ => n
  | .txt n _ _ => n

/-- TTL carried by an answer entry (`Hdr.Ttl`). -/
def RR.ttlOf : RR → Nat
  | .a _ t _ => t
  | .aaaa _ t _ => t
  | .cname _ t _ => t
  | .txt _ t _ => t

/-- One iteration of the loop body of `RespondWithRecords`: the answers
contributed by a single record.  A record is considered when its stored
type case-insensitively equals the requested type name or the request is
`ANY` (code 255); the switch on the uppercased stored type then builds an
`A`, `AAAA`, `CNAME` or `TXT` entry.  `A` requires `ParseIP(value).To4()`
to succeed, `AAAA` requires `ParseIP(value)` to succeed, and any other
stored type falls out of the switch with no answer. -/
def synthOne (parseIP : String → Option IP) (qt : Nat) (r : Record) : List RR :=
  if eqFold r.qtype (typeToString qt) || qt == 255 then
    if upper r.qtype = "A" then
      match (parseIP r.value).bind IP.to4 with
      | some quad => [RR.a (fqdn r.domain) (ttl32 r.ttl) quad]
      | none => []
    else if upper r.qtype = "AAAA" then
      match parseIP r.value with
      | some ip => [RR.aaaa (fqdn r.domain) (ttl32 r.ttl) ip]
      | none => []
    else if upper r.qtype = "CNAME" then
      [RR.cname (fqdn r.domain) (ttl32 r.ttl) (fqdn r.value)]
    else if upper r.qtype = "TXT" then
      [RR.txt (fqdn r.domain) (ttl32 r.ttl) [r.value]]
    else []
  else []

/-- The answer list built by `RespondWithRecords` for a record list and a
requested query-type code: the loop appends the contribution of each
record in order. -/
def respondWithRecords (parseIP : String → Option IP) (qt : Nat) :
    List Record → List RR
  | [] => []
  | r :: rs => synthOne parseIP qt r ++ respondWithRecords parseIP qt rs

/-- Response codes produced by the handler (`dns.RcodeSuccess`,
`dns.RcodeFormatError`, `dns.RcodeServerFailure`, `dns.RcodeNameError`). -/
inductive Rcode where
  | noError
  | formatError
  | serverFailure
  | nameError
deriving DecidableEq

/-- The response message written back to the client: response code and
answer section. -/
structure DnsMsg where
  rcode : Rcode
  answer : List RR
deriving DecidableEq

/-- One entry of the question section: `Name` and the numeric `Qtype`. -/
structure Question where
  name : String
  qtype : Nat
deriving DecidableEq

/-- An observable access to the cache or the persistent store, recorded in
order of occurrence. -/
inductive Effect where
  | cacheGet (key : String)
  | storeFetch (domain qtype : String)
  | incrMetric (domain qtype : String)
  | readHits (domain qtype : String)
  | cacheSet (key : String)
deriving DecidableEq

/-- Whether an effect is a persistent-store record lookup
(`db.FetchRecords`). -/
def Effect.isStoreFetch : Effect → Bool
  | .storeFetch _ _ => true
  | _ => false

/-- Whether an effect is a cache write (`cache.CacheRecord`). -/
def Effect.isCacheSet : Effect → Bool
  | .cacheSet _ => true
  | _ => false

/-- Whether a trace contains a persistent-store record lookup. -/
def touchesStore (fx : List Effect) : Bool := fx.any Effect.isStoreFetch

/-- Whether a trace contains a cache write. -/
def writesCache (fx : List Effect) : Bool := fx.any Effect.isCacheSet

/-- The Redis key scheme of `cache.CacheKey`:
`"dns:record:" + lowercase(domain) + ":" + uppercase(qtype)`. -/
def cacheKey (domain qtype : String) : String :=
  "dns:record:" ++ lower domain ++ ":" ++ upper qtype

/-- The environment a single request handler run reads from: the external
IP-literal parser, the Redis `Get` (`none` models a missing key or a Redis
error), the JSON decoding of a cached blob (`none` models an undecodable
value), and the Postgres record lookup (`Except.error` models a query
error). -/
structure DnsEnv where
  parseIP : String → Option IP
  cacheGet : String → Option String
  unmarshal : String → Option (List Record)
  fetchRecords : String → String → Except Unit (List Record)

/-- The observable result of one handler run: the message written, the
ordered trace of synchronous cache/store accesses, and the
`servedFromCache` flag of the detached promotion-policy invocation spawned
at the end (`none` when no promotion is spawned). -/
structure HandleResult where
  msg : DnsMsg
  effects : List Effect
  promo : Option Bool
deriving DecidableEq

/-- The tail of `HandleDNSRequest` after the cache block: fetch from
Postgres; a fetch error yields `ServerFailure`, zero rows yields
`NameError`, and one or more rows are answered with `RespondWithRecords`
followed by a detached `updateMetricServedNotFromCache`. -/
def storeLookupPath (env : DnsEnv) (domain qtype : String) (qt : Nat)
    (pre : List Effect) : HandleResult :=
  match env.fetchRecords domain qtype with
  | .error _ => ⟨⟨.serverFailure, []⟩, pre ++ [.storeFetch domain qtype], none⟩
  | .ok recs =>
    if recs.length = 0 then
      ⟨⟨.nameError, []⟩, pre ++ [.storeFetch domain qtype], none⟩
    else
      ⟨⟨.noError, respondWithRecords env.parseIP qt recs⟩,
        pre ++ [.storeFetch domain qtype], some false⟩

/-- The request handler `HandleDNSRequest`: an empty question section is
answered `FormatError` immediately; otherwise the first question is taken,
the domain loses its trailing dot, the qtype code is rendered as a string,
and the cache is consulted first.  A present and decodable cache value is
answered directly with a detached `updateMetricServedFromCache`; a missing
key, a Redis error, or an undecodable value all fall through to the store
path. -/
def handleDNSRequest (env : DnsEnv) (questions : List Question) : HandleResult :=
  match questions with
  | [] => ⟨⟨.formatError, []⟩, [], none⟩
  | q :: _ =>
    let domain := trimDot q.name
    let qtype := typeToString q.qtype
    let key := cacheKey domain qtype
    match env.cacheGet key with
    | some s =>
      match env.unmarshal s with
      | some recs =>
        ⟨⟨.noError, respondWithRecords env.parseIP q.qtype recs⟩,
          [.cacheGet key], some true⟩
      | none => storeLookupPath env domain qtype q.qtype [.cacheGet key]
    | none => storeLookupPath env domain qtype q.qtype [.cacheGet key]

/-- Whether the handler run for the first question is a cache miss in the
sense of the code: the Redis `Get` fails or returns a value that does not
decode. -/
def cacheMiss (env : DnsEnv) (q : Question) : Bool :=
  match env.cacheGet (cacheKey (trimDot q.name) (typeToString q.qtype)) with
  | none => true
  | some s => (env.unmarshal s).isNone

/-- The environment one promotion-policy run reads from: the counter value
read back by `db.GetDomainHits` after the unconditional increment
(`Except.error` models a read failure), the `MIN_HITS_FOR_CACHE` threshold
(default 5), and the record re-fetch used before caching. -/
structure MetricEnv where
  getHits : Except Unit Int
  minHits : Int
  fetchRecords : Except Unit (List Record)

/-- The promotion policy `updateMetric`, as the ordered trace of its
cache/store accesses: increment the counter unconditionally, read it back
(a failure aborts), stop below the threshold, stop when the response was
served from cache, otherwise re-fetch the records and — if the fetch
succeeded with at least one row — write them to the cache. -/
def updateMetric (env : MetricEnv) (domain qtype : String)
    (servedFromCache : Bool) : List Effect :=
  let base := [Effect.incrMetric domain qtype, Effect.readHits domain qtype]
  match env.getHits with
  | .error _ => base
  | .ok hits =>
    if hits < env.minHits then base
    else if servedFromCache then base
    else
      match env.fetchRecords with
      | .error _ => base ++ [Effect.storeFetch domain qtype]
      | .ok recs =>
        if recs.length = 0 then base ++ [Effect.storeFetch domain qtype]
        else base ++ [Effect.storeFetch domain qtype,
                      Effect.cacheSet (cacheKey domain qtype)]

/-- The demand state the promotion policy maintains for one
(domain, qtype) pair: the `dns_metrics` row (`none` while the pair was
never resolved) and whether a live cache entry currently exists for the
pair's key. -/
structure PairState where
  hits : Option Int
  cached : Bool
deriving DecidableEq

/-- A cold pair: no metrics row yet and no cache entry. -/
def initState : PairState := ⟨none, false⟩

/-- The events a (domain, qtype) pair observes in the resolver-only world:
an inbound resolution of the pair, or the natural expiry of its cache
entry. -/
inductive Event where
  | resolve
  | expire
deriving DecidableEq

/-- The metric environment one policy run sees when the store holds
`storeRecs` for the pair, reads succeed, and the counter read back after
the increment is `hitsAfter`. -/
def policyEnv (threshold : Int) (storeRecs : List Record) (hitsAfter : Int) :
    MetricEnv :=
  ⟨.ok hitsAfter, threshold, .ok storeRecs⟩

/-- One event of the pair's life, built on `updateMetric`.  A resolution
is served from the cache exactly when a cache entry exists (then the
detached policy runs with `servedFromCache = true`), and from the store
otherwise; either way `IncrementMetric` upserts the counter (insert with
1, or increment), the policy runs, and the cache entry appears exactly
when the policy's trace contains a cache write.  Expiry drops the cache
entry.  Returns the new state and whether this event wrote the cache. -/
def stepW (threshold : Int) (storeRecs : List Record) (s : PairState) :
    Event → PairState × Bool
  | .resolve =>
    let hits' := s.hits.getD 0 + 1
    let fx := updateMetric (policyEnv threshold storeRecs hits') "" "" s.cached
    let w := writesCache fx
    (⟨some hits', s.cached || w⟩, w)
  | .expire => (⟨s.hits, false⟩, false)

/-- The state after a sequence of events. -/
def runP (threshold : Int) (storeRecs : List Record) (s : PairState) :
    List Event → PairState
  | [] => s
  | e :: es => runP threshold storeRecs (stepW threshold storeRecs s e).1 es

/-- Whether the next event, taken in state `s`, performs a cache write. -/
def stepWrites (threshold : Int) (storeRecs : List Record) (s : PairState)
    (e : Event) : Bool :=
  (stepW threshold storeRecs s e).2

/-- Number of resolutions in an event sequence. -/
def totCount : List Event → Nat
  | [] => 0
  | .resolve :: es => totCount es + 1
  | .expire :: es => totCount es

/-- Number of resolutions in an event sequence that are not served from
the cache (the pair is uncached when they arrive). -/
def ssCount (threshold : Int) (storeRecs : List Record) (s : PairState) :
    List Event → Nat
  | [] => 0
  | .resolve :: es =>
    (if s.cached then 0 else 1)
      + ssCount threshold storeRecs (stepW threshold storeRecs s .resolve).1 es
  | .expire :: es =>
    ssCount threshold storeRecs (stepW threshold storeRecs s .expire).1 es

/-- Whether two records agree on the (domain, qtype, value) uniqueness
triple of the `dns_records` relation. -/
def sameTriple (a b : Record) : Bool :=
  a.domain == b.domain && a.qtype == b.qtype && a.value == b.value

/-- The `UNIQUE(domain, qtype, value)` constraint of `dns_records`: no two
rows share the triple. -/
def UniqueTriples (tbl : List Record) : Prop :=
  tbl.Pairwise (fun a b => sameTriple a b = false)

/-- The upsert of `AddRecord`:
`INSERT ... ON CONFLICT (domain, qtype, value) DO UPDATE SET ttl = $3`
over an in-memory image of `dns_records`.  On conflict the existing row's
ttl is set to the incoming ttl; otherwise the row is inserted. -/
def addRecord (tbl : List Record) (r : Record) : List Record :=
  if tbl.any (fun x => sameTriple x r) then
    tbl.map (fun x => if sameTriple x r then { x with ttl := r.ttl } else x)
  else tbl ++ [r]

/-- The `SELECT` of `FetchRecords` over an in-memory image of
`dns_records`: all rows `WHERE domain = $1 AND qtype = $2`, possibly
empty, never an error. -/
def fetchFromTable (tbl : List Record) (domain qtype : String) :
    Except Unit (List Record) :=
  .ok (tbl.filter (fun r => r.domain == domain && r.qtype == qtype))

/-- Digits of a dotted-decimal field read as a number; anything containing
a non-digit character is rejected. -/
def fieldToNat (cs : List Char) : Option Nat :=
  if cs.all Char.isDigit then
    some (cs.foldl (fun acc c => acc * 10 + (c.toNat - 48)) 0)
  else none

/-- One field of a dotted-decimal IPv4 literal: one to three digits, no
leading zero (Go 1.17 and later reject it), value at most 255. -/
def parseV4Field (cs : List Char) : Option Nat :=
  if cs = [] then none
  else if 3 < cs.length then none
  else if 1 < cs.length ∧ cs.head? = some '0' then none
  else
    match fieldToNat cs with
    | some n => if n ≤ 255 then some n else none
    | none => none

/-- Split a character list at every dot. -/
def splitDots : List Char → List (List Char)
  | [] => [[]]
  | c :: rest =>
    let r := splitDots rest
    if c = '.' then [] :: r
    else
      match r with
      | g :: gs => (c :: g) :: gs
      | [] => [[c]]

/-- Modelled from the external Go `net.ParseIP` restricted to
dotted-decimal IPv4 literals: four dot-separated fields, each a 0–255
decimal without leading zeros.  IPv6 literal parsing is external and not
modelled (such inputs yield `none` here and no theorem below feeds one to
this function); the theorems about the synthesizer quantify over an
arbitrary parser, this concrete one only instantiates them. -/
def goParseIP (s : String) : Option IP :=
  match splitDots s.data with
  | [a, b, c, d] =>
    match parseV4Field a, parseV4Field b, parseV4Field c, parseV4Field d with
    | some x, some y, some z, some w => some (IP.v4 x y z w)
    | _, _, _, _ => none
  | _ => none

/-- A store image whose only row is an `A` record for `example.com`. -/
def exTable : List Record := [⟨"example.com", "A", 300, "1.2.3.4"⟩]

/-- A handler environment over an in-memory store image with an empty
cache. -/
def tableEnv (tbl : List Record) : DnsEnv :=
  { parseIP := goParseIP
    cacheGet := fun _ => none
    unmarshal := fun _ => none
    fetchRecords := fetchFromTable tbl }

/-- A store image whose only row is an `MX` record for `example.com` — a
stored type outside the synthesizer's switch. -/
def mxTable : List Record := [⟨"example.com", "MX", 300, "mail.example.com"⟩]

/- ------------------------------------------------------------------ -/
/- Helper lemmas shared by several claims.                             -/
/- ------------------------------------------------------------------ -/

theorem respondWithRecords_append (pip : String → Option IP) (qt : Nat)
    (l1 l2 : List Record) :
    respondWithRecords pip qt (l1 ++ l2) =
      respondWithRecords pip qt l1 ++ respondWithRecords pip qt l2 := by
  induction l1 with
  | nil => rfl
  | cons r rs ih => simp [respondWithRecords, ih]

theorem synthOne_owner_ttl (pip : String → Option IP) (qt : Nat) (s : Record) :
    ∀ rr ∈ synthOne pip qt s,
      RR.ownerName rr = fqdn s.domain ∧ RR.ttlOf rr = ttl32 s.ttl := by
  intro rr hrr
  unfold synthOne at hrr
  split at hrr
  · split at hrr
    · split at hrr
      · simp at hrr
        subst hrr
        exact ⟨rfl, rfl⟩
      · simp at hrr
    · split at hrr
      · split at hrr
        · simp at hrr
          subst hrr
          exact ⟨rfl, rfl⟩
        · simp at hrr
      · split at hrr
        · simp at hrr
          subst hrr
          exact ⟨rfl, rfl⟩
        · split at hrr
          · simp at hrr
            subst hrr
            exact ⟨rfl, rfl⟩
          · simp at hrr
  · simp at hrr

theorem updateMetric_served_from_cache (menv : MetricEnv) (d ty : String) :
    updateMetric menv d ty true = [Effect.incrMetric d ty, Effect.readHits d ty] := by
  unfold updateMetric
  cases menv.getHits with
  | error e => rfl
  | ok h =>
    by_cases hlt : h < menv.minHits
    · simp [hlt]
    · simp [hlt]

theorem updateMetric_below_threshold (menv : MetricEnv) (d ty : String)
    (served : Bool) (h : Int) (hh : menv.getHits = .ok h)
    (hlt : h < menv.minHits) :
    updateMetric menv d ty served = [Effect.incrMetric d ty, Effect.readHits d ty] := by
  unfold updateMetric
  rw [hh]
  simp [hlt]

theorem writesCache_base (d ty : String) :
    writesCache [Effect.incrMetric d ty, Effect.readHits d ty] = false := by
  rfl

theorem storeLookupPath_error (env : DnsEnv) (d ty : String) (qt : Nat)
    (pre : List Effect) (hf : env.fetchRecords d ty = .error ()) :
    storeLookupPath env d ty qt pre =
      ⟨⟨.serverFailure, []⟩, pre ++ [.storeFetch d ty], none⟩ := by
  unfold storeLookupPath
  rw [hf]

theorem storeLookupPath_empty (env : DnsEnv) (d ty : String) (qt : Nat)
    (pre : List Effect) (hf : env.fetchRecords d ty = .ok []) :
    storeLookupPath env d ty qt pre =
      ⟨⟨.nameError, []⟩, pre ++ [.storeFetch d ty], none⟩ := by
  unfold storeLookupPath
  rw [hf]
  rfl

theorem storeLookupPath_rows (env : DnsEnv) (d ty : String) (qt : Nat)
    (pre : List Effect) (recs : List Record)
    (hf : env.fetchRecords d ty = .ok recs) (hne : recs ≠ []) :
    storeLookupPath env d ty qt pre =
      ⟨⟨.noError, respondWithRecords env.parseIP qt recs⟩,
        pre ++ [.storeFetch d ty], some false⟩ := by
  unfold storeLookupPath
  rw [hf]
  simp [List.length_eq_zero, hne]

theorem handle_cacheMiss (env : DnsEnv) (q : Question) (rest : List Question)
    (hm : cacheMiss env q = true) :
    handleDNSRequest env (q :: rest) =
      storeLookupPath env (trimDot q.name) (typeToString q.qtype) q.qtype
        [.cacheGet (cacheKey (trimDot q.name) (typeToString q.qtype))] := by
  unfold cacheMiss at hm
  unfold handleDNSRequest
  cases hcg : env.cacheGet (cacheKey (trimDot q.name) (typeToString q.qtype)) with
  | none => simp [hcg]
  | some s =>
    rw [hcg] at hm
    cases hu : env.unmarshal s with
    | none => simp [hcg, hu]
    | some recs =>
      simp [hu] at hm

theorem handle_cacheHit (env : DnsEnv) (q : Question) (rest : List Question)
    (s : String) (recs : List Record)
    (hg : env.cacheGet (cacheKey (trimDot q.name) (typeToString q.qtype)) = some s)
    (hu : env.unmarshal s = some recs) :
    handleDNSRequest env (q :: rest) =
      ⟨⟨.noError, respondWithRecords env.parseIP q.qtype recs⟩,
        [.cacheGet (cacheKey (trimDot q.name) (typeToString q.qtype))],
        some true⟩ := by
  unfold handleDNSRequest
  simp [hg, hu]

/- ------------------------------------------------------------------ -/
/- C10                                                                 -/
/- ------------------------------------------------------------------ -/

/-- C10: a record whose stored type (uppercased) is outside
{A, AAAA, CNAME, TXT} contributes no answer — whatever the requested
type, so in particular also when it case-insensitively equals the stored
type or is the wildcard — and removing such a record from the record list
leaves the synthesized answer set unchanged. -/
theorem unsupported_type_yields_no_answer (pip : String → Option IP)
    (qt : Nat) (r : Record) (pre post : List Record)
    (hA : upper r.qtype ≠ "A") (hB : upper r.qtype ≠ "AAAA")
    (hC : upper r.qtype ≠ "CNAME") (hD : upper r.qtype ≠ "TXT") :
    synthOne pip qt r = []
      ∧ respondWithRecords pip qt (pre ++ r :: post)
          = respondWithRecords pip qt (pre ++ post) := by
  have h1 : synthOne pip qt r = [] := by
    simp [synthOne, hA, hB, hC, hD]
  refine ⟨h1, ?_⟩
  have : (r :: post) = [r] ++ post := rfl
  rw [this, respondWithRecords_append, respondWithRecords_append,
    respondWithRecords_append]
  simp [respondWithRecords, h1]

/-- C10 witness: an `MX` record is dropped even for an `MX` query (code
15), whose type name case-insensitively equals the stored type. -/
theorem unsupported_type_yields_no_answer_witness :
    upper "MX" ≠ "A"
      ∧ eqFold "MX" (typeToString 15) = true
      ∧ synthOne goParseIP 15 ⟨"example.com", "MX", 300, "mail.example.com"⟩ = []
      ∧ respondWithRecords goParseIP 15
          (exTable ++ ⟨"example.com", "MX", 300, "mail.example.com"⟩ :: [])
          = respondWithRecords goParseIP 15 (exTable ++ []) := by
  refine ⟨by decide, by decide, ?_⟩
  exact unsupported_type_yields_no_answer goParseIP 15
    ⟨"example.com", "MX", 300, "mail.example.com"⟩ exTable []
    (by decide) (by decide) (by decide) (by decide)

/- ------------------------------------------------------------------ -/
/- C8                                                                  -/
/- ------------------------------------------------------------------ -/

/-- C8: an `AAAA` record whose value parses as any IP address — the
`AAAA` branch applies `ParseIP` without `To4`, so a dotted-decimal IPv4
literal is not rejected — yields exactly one `AAAA` answer, carrying the
parsed address, the record's 32-bit TTL and the fully-qualified owner
name. -/
theorem aaaa_includes_any_parsed_ip (pip : String → Option IP) (qt : Nat)
    (r : Record) (ip : IP)
    (hT : upper r.qtype = "AAAA")
    (hm : (eqFold r.qtype (typeToString qt) || qt == 255) = true)
    (hp : pip r.value = some ip) :
    synthOne pip qt r = [RR.aaaa (fqdn r.domain) (ttl32 r.ttl) ip] := by
  unfold synthOne
  rw [hm]
  simp only [if_true]
  rw [if_neg (by rw [hT]; decide), if_pos hT, hp]

/-- C8 witness: the concrete dotted-decimal IPv4 literal `1.2.3.4` in an
`AAAA` record produces an `AAAA` answer for an `AAAA` query (code 28). -/
theorem aaaa_includes_any_parsed_ip_witness :
    upper "AAAA" = "AAAA"
      ∧ (eqFold "AAAA" (typeToString 28) || (28 : Nat) == 255) = true
      ∧ goParseIP "1.2.3.4" = some (IP.v4 1 2 3 4)
      ∧ synthOne goParseIP 28 ⟨"example.com", "AAAA", 300, "1.2.3.4"⟩
          = [RR.aaaa (fqdn "example.com") (ttl32 300) (IP.v4 1 2 3 4)] := by
  refine ⟨by decide, by decide, by decide, ?_⟩
  exact aaaa_includes_any_parsed_ip goParseIP 28
    ⟨"example.com", "AAAA", 300, "1.2.3.4"⟩ (IP.v4 1 2 3 4)
    (by decide) (by decide) (by decide)

/- ------------------------------------------------------------------ -/
/- C7                                                                  -/
/- ------------------------------------------------------------------ -/

/-- C7: an `A` record whose value does not parse to an IPv4 address
(`ParseIP(value).To4()` fails) is silently dropped: it contributes no
answer, and removing it leaves the answers of all other records
unchanged; every answer any record does produce carries that record's
32-bit TTL and fully-qualified owner name; and a store-served response
remains a success (`noError`) whatever the synthesizer drops. -/
theorem invalid_a_record_dropped (pip : String → Option IP) (qt : Nat)
    (r : Record) (pre post : List Record)
    (hT : upper r.qtype = "A")
    (hbad : (pip r.value).bind IP.to4 = none) :
    synthOne pip qt r = []
      ∧ respondWithRecords pip qt (pre ++ r :: post)
          = respondWithRecords pip qt (pre ++ post)
      ∧ (∀ s : Record, ∀ rr ∈ synthOne pip qt s,
          RR.ownerName rr = fqdn s.domain ∧ RR.ttlOf rr = ttl32 s.ttl)
      ∧ (∀ (env : DnsEnv) (q : Question) (rest : List Question)
          (recs : List Record),
          cacheMiss env q = true →
          env.fetchRecords (trimDot q.name) (typeToString q.qtype) = .ok recs →
          recs ≠ [] →
          (handleDNSRequest env (q :: rest)).msg.rcode = Rcode.noError) := by
  have h1 : synthOne pip qt r = [] := by
    simp [synthOne, hT, hbad]
  refine ⟨h1, ?_, fun s => synthOne_owner_ttl pip qt s, ?_⟩
  · have : (r :: post) = [r] ++ post := rfl
    rw [this, respondWithRecords_append, respondWithRecords_append,
      respondWithRecords_append]
    simp [respondWithRecords, h1]
  · intro env q rest recs hmiss hf hne
    rw [handle_cacheMiss env q rest hmiss,
      storeLookupPath_rows env _ _ _ _ recs hf hne]

/-- C7 witness: an `A` record whose value is not an IPv4 literal is
dropped from the answer set while a valid sibling `A` record still
answers. -/
theorem invalid_a_record_dropped_witness :
    upper "A" = "A"
      ∧ (goParseIP "not-an-ip").bind IP.to4 = none
      ∧ synthOne goParseIP 1 ⟨"example.com", "A", 300, "not-an-ip"⟩ = []
      ∧ respondWithRecords goParseIP 1
          (exTable ++ ⟨"example.com", "A", 300, "not-an-ip"⟩ :: [])
          = respondWithRecords goParseIP 1 (exTable ++ []) := by
  refine ⟨by decide, by decide, ?_⟩
  have h := invalid_a_record_dropped goParseIP 1
    ⟨"example.com", "A", 300, "not-an-ip"⟩ exTable []
    (by decide) (by decide)
  exact ⟨h.1, h.2.1⟩

/- ------------------------------------------------------------------ -/
/- C6                                                                  -/
/- ------------------------------------------------------------------ -/

theorem storeLookupPath_congr (env1 env2 : DnsEnv) (d ty : String) (qt : Nat)
    (pre : List Effect) (hp : env1.parseIP = env2.parseIP)
    (hf : env1.fetchRecords = env2.fetchRecords) :
    storeLookupPath env1 d ty qt pre = storeLookupPath env2 d ty qt pre := by
  unfold storeLookupPath
  rw [hp, hf]

/-- C6: a cache key whose stored value does not decode into a record list
behaves exactly like an absent key: the handler run is identical to the
one against an environment where the key is missing, and both fall
through to the persistent-store lookup path (so no error reaches the
client from the corrupt entry). -/
theorem corrupt_cache_value_is_miss (env1 env2 : DnsEnv) (q : Question)
    (rest : List Question) (s : String)
    (hg : env1.cacheGet (cacheKey (trimDot q.name) (typeToString q.qtype)) = some s)
    (hu : env1.unmarshal s = none)
    (hg2 : env2.cacheGet (cacheKey (trimDot q.name) (typeToString q.qtype)) = none)
    (hp : env1.parseIP = env2.parseIP)
    (hf : env1.fetchRecords = env2.fetchRecords) :
    handleDNSRequest env1 (q :: rest) = handleDNSRequest env2 (q :: rest)
      ∧ handleDNSRequest env1 (q :: rest) =
          storeLookupPath env1 (trimDot q.name) (typeToString q.qtype) q.qtype
            [.cacheGet (cacheKey (trimDot q.name) (typeToString q.qtype))] := by
  have hm1 : cacheMiss env1 q = true := by
    unfold cacheMiss
    rw [hg]
    simp [hu]
  have hm2 : cacheMiss env2 q = true := by
    unfold cacheMiss
    rw [hg2]
  have e1 := handle_cacheMiss env1 q rest hm1
  have e2 := handle_cacheMiss env2 q rest hm2
  refine ⟨?_, e1⟩
  rw [e1, e2]
  exact storeLookupPath_congr env1 env2 _ _ _ _ hp hf

/-- C6 witness: a concrete environment holding an undecodable blob under
the query's key resolves exactly like the empty-cache environment. -/
theorem corrupt_cache_value_is_miss_witness :
    ({ tableEnv exTable with
        cacheGet := fun _ => some "garbage" } : DnsEnv).cacheGet
        (cacheKey (trimDot "example.com.") (typeToString 1)) = some "garbage"
      ∧ handleDNSRequest
          { tableEnv exTable with cacheGet := fun _ => some "garbage" }
          [⟨"example.com.", 1⟩]
        = handleDNSRequest (tableEnv exTable) [⟨"example.com.", 1⟩] := by
  refine ⟨rfl, ?_⟩
  exact (corrupt_cache_value_is_miss
    { tableEnv exTable with cacheGet := fun _ => some "garbage" }
    (tableEnv exTable) ⟨"example.com.", 1⟩ [] "garbage"
    rfl rfl rfl rfl rfl).1

/- ------------------------------------------------------------------ -/
/- C4                                                                  -/
/- ------------------------------------------------------------------ -/

/-- C4: a cache-hit response performs no persistent-store record lookup —
its synchronous trace is exactly the one cache read — and schedules the
promotion policy with `servedFromCache = true`; a policy run with that
flag performs exactly the counter increment and the counter read-back,
never a record re-fetch and never a cache write. -/
theorem cache_hit_touches_no_store (env : DnsEnv) (q : Question)
    (rest : List Question) (s : String) (recs : List Record)
    (hg : env.cacheGet (cacheKey (trimDot q.name) (typeToString q.qtype)) = some s)
    (hu : env.unmarshal s = some recs) :
    (handleDNSRequest env (q :: rest)).effects
        = [Effect.cacheGet (cacheKey (trimDot q.name) (typeToString q.qtype))]
      ∧ touchesStore (handleDNSRequest env (q :: rest)).effects = false
      ∧ (handleDNSRequest env (q :: rest)).promo = some true
      ∧ ∀ (menv : MetricEnv) (d ty : String),
          updateMetric menv d ty true
              = [Effect.incrMetric d ty, Effect.readHits d ty]
            ∧ touchesStore (updateMetric menv d ty true) = false
            ∧ writesCache (updateMetric menv d ty true) = false := by
  have h := handle_cacheHit env q rest s recs hg hu
  rw [h]
  refine ⟨rfl, rfl, rfl, ?_⟩
  intro menv d ty
  have hm := updateMetric_served_from_cache menv d ty
  rw [hm]
  exact ⟨rfl, rfl, rfl⟩

/-- C4 witness: a concrete environment whose cache holds a decodable entry
for the key answers without touching the store, and the policy run with
`servedFromCache = true` is counter-only. -/
theorem cache_hit_touches_no_store_witness :
    ({ tableEnv exTable with
        cacheGet := fun _ => some "blob",
        unmarshal := fun _ => some exTable } : DnsEnv).unmarshal "blob"
        = some exTable
      ∧ touchesStore (handleDNSRequest
          { tableEnv exTable with
              cacheGet := fun _ => some "blob",
              unmarshal := fun _ => some exTable }
          [⟨"example.com.", 1⟩]).effects = false
      ∧ updateMetric ⟨.ok 7, 5, .ok exTable⟩ "example.com" "A" true
          = [Effect.incrMetric "example.com" "A",
             Effect.readHits "example.com" "A"] := by
  have h := cache_hit_touches_no_store
    { tableEnv exTable with
        cacheGet := fun _ => some "blob",
        unmarshal := fun _ => some exTable }
    ⟨"example.com.", 1⟩ [] "blob" exTable rfl rfl
  exact ⟨rfl, h.2.1, (h.2.2.2 ⟨.ok 7, 5, .ok exTable⟩ "example.com" "A").1⟩

/- ------------------------------------------------------------------ -/
/- C3                                                                  -/
/- ------------------------------------------------------------------ -/

/-- C3: the handler's terminal outcomes.  A query with zero questions is
answered `FormatError` with no cache or store access at all; on a cache
miss, a store error yields `ServerFailure` after exactly one lookup (no
retry), zero rows yield `NameError`, and one or more rows yield a success
whose answers are the synthesized ones. -/
theorem resolver_terminal_outcomes (env : DnsEnv) (qs : List Question) :
    (qs = [] → handleDNSRequest env qs
        = ⟨⟨Rcode.formatError, []⟩, [], none⟩)
    ∧ ∀ q rest, qs = q :: rest → cacheMiss env q = true →
        (env.fetchRecords (trimDot q.name) (typeToString q.qtype)
            = .error () →
          handleDNSRequest env qs =
            ⟨⟨Rcode.serverFailure, []⟩,
              [.cacheGet (cacheKey (trimDot q.name) (typeToString q.qtype)),
               .storeFetch (trimDot q.name) (typeToString q.qtype)], none⟩)
        ∧ (env.fetchRecords (trimDot q.name) (typeToString q.qtype)
            = .ok [] →
          handleDNSRequest env qs =
            ⟨⟨Rcode.nameError, []⟩,
              [.cacheGet (cacheKey (trimDot q.name) (typeToString q.qtype)),
               .storeFetch (trimDot q.name) (typeToString q.qtype)], none⟩)
        ∧ ∀ recs, env.fetchRecords (trimDot q.name) (typeToString q.qtype)
            = .ok recs → recs ≠ [] →
          handleDNSRequest env qs =
            ⟨⟨Rcode.noError, respondWithRecords env.parseIP q.qtype recs⟩,
              [.cacheGet (cacheKey (trimDot q.name) (typeToString q.qtype)),
               .storeFetch (trimDot q.name) (typeToString q.qtype)],
              some false⟩ := by
  constructor
  · intro h
    rw [h]
    rfl
  · intro q rest hqs hm
    subst hqs
    have hpath := handle_cacheMiss env q rest hm
    refine ⟨?_, ?_, ?_⟩
    · intro hf
      rw [hpath, storeLookupPath_error env _ _ _ _ hf]
      rfl
    · intro hf
      rw [hpath, storeLookupPath_empty env _ _ _ _ hf]
      rfl
    · intro recs hf hne
      rw [hpath, storeLookupPath_rows env _ _ _ _ recs hf hne]
      rfl

/-- C3 witness: the empty question section gives `FormatError` with an
empty access trace, and a cache-miss query whose pair has no rows gives
`NameError` after exactly one store lookup. -/
theorem resolver_terminal_outcomes_witness :
    cacheMiss (tableEnv exTable) ⟨"example.com.", 28⟩ = true
      ∧ handleDNSRequest (tableEnv exTable) ([] : List Question)
          = ⟨⟨Rcode.formatError, []⟩, [], none⟩
      ∧ handleDNSRequest (tableEnv exTable) [⟨"example.com.", 28⟩]
          = ⟨⟨Rcode.nameError, []⟩,
              [.cacheGet (cacheKey (trimDot "example.com.") (typeToString 28)),
               .storeFetch (trimDot "example.com.") (typeToString 28)],
              none⟩ := by
  refine ⟨by decide, ?_, ?_⟩
  · exact (resolver_terminal_outcomes (tableEnv exTable) []).1 rfl
  · exact (((resolver_terminal_outcomes (tableEnv exTable)
      [⟨"example.com.", 28⟩]).2 ⟨"example.com.", 28⟩ [] rfl
      (by decide)).2.1 rfl)

/- ------------------------------------------------------------------ -/
/- C1                                                                  -/
/- ------------------------------------------------------------------ -/

/-- C1 counterexample: the persistent store holds a row for
`example.com` (an `A` record) but none of the requested type `AAAA`, the
cache misses, and the resolver answers `NameError` — not the successful
zero-answer response the claim requires.  The store lookup filters by
qtype (`WHERE domain = $1 AND qtype = $2`), so rows of other types never
reach the handler. -/
theorem nxdomain_despite_other_type_rows :
    (∃ r ∈ exTable, r.domain = "example.com")
      ∧ (∀ r ∈ exTable, r.qtype ≠ "AAAA")
      ∧ cacheMiss (tableEnv exTable) ⟨"example.com.", 28⟩ = true
      ∧ trimDot "example.com." = "example.com"
      ∧ typeToString 28 = "AAAA"
      ∧ (handleDNSRequest (tableEnv exTable)
            [⟨"example.com.", 28⟩]).msg.rcode = Rcode.nameError := by
  decide

/-- C1 (amended): the `NXDOMAIN` decision is made solely from the row
count the store returns for the exact (domain, qtype) pair — zero rows
for the pair yield `NameError`, even when the domain has rows of other
types, because the SQL lookup itself filters by qtype; one or more rows
for the pair yield a success whose code does not depend on how many
answers survive type filtering in the synthesizer (it stays `noError`
even when zero answers survive). -/
theorem nxdomain_decided_by_store_rowcount (env : DnsEnv)
    (tbl : List Record) (q : Question) (rest : List Question)
    (hf : env.fetchRecords = fetchFromTable tbl)
    (hm : cacheMiss env q = true) :
    (tbl.filter (fun r => r.domain == trimDot q.name
        && r.qtype == typeToString q.qtype) = [] →
      (handleDNSRequest env (q :: rest)).msg.rcode = Rcode.nameError)
    ∧ ∀ rows, tbl.filter (fun r => r.domain == trimDot q.name
        && r.qtype == typeToString q.qtype) = rows → rows ≠ [] →
      (handleDNSRequest env (q :: rest)).msg
        = ⟨Rcode.noError, respondWithRecords env.parseIP q.qtype rows⟩ := by
  have hpath := handle_cacheMiss env q rest hm
  constructor
  · intro hrows
    have hfe : env.fetchRecords (trimDot q.name) (typeToString q.qtype)
        = .ok [] := by
      rw [hf]
      unfold fetchFromTable
      rw [hrows]
    rw [hpath, storeLookupPath_empty env _ _ _ _ hfe]
  · intro rows hrows hne
    have hfe : env.fetchRecords (trimDot q.name) (typeToString q.qtype)
        = .ok rows := by
      rw [hf]
      unfold fetchFromTable
      rw [hrows]
    rw [hpath, storeLookupPath_rows env _ _ _ _ rows hfe hne]

/-- C1 (amended) witness: a pair with no rows yields `NameError` even
though the domain has a row of another type, and a pair whose only row is
of an unsupported stored type yields `noError` with zero answers. -/
theorem nxdomain_decided_by_store_rowcount_witness :
    (handleDNSRequest (tableEnv exTable)
        [⟨"example.com.", 28⟩]).msg.rcode = Rcode.nameError
      ∧ (handleDNSRequest (tableEnv mxTable)
          [⟨"example.com.", 15⟩]).msg
            = ⟨Rcode.noError, []⟩ := by
  constructor
  · exact (nxdomain_decided_by_store_rowcount (tableEnv exTable) exTable
      ⟨"example.com.", 28⟩ [] rfl (by decide)).1 (by decide)
  · have h := (nxdomain_decided_by_store_rowcount (tableEnv mxTable) mxTable
      ⟨"example.com.", 15⟩ [] rfl (by decide)).2
      [⟨"example.com", "MX", 300, "mail.example.com"⟩] (by decide) (by decide)
    rw [h]
    decide

/- ------------------------------------------------------------------ -/
/- State-machine lemmas for the promotion-policy claims.               -/
/- ------------------------------------------------------------------ -/

theorem runP_singleton (t : Int) (recs : List Record) (s : PairState)
    (e : Event) : runP t recs s [e] = (stepW t recs s e).1 := rfl

theorem runP_append (t : Int) (recs : List Record) (s : PairState)
    (p q : List Event) :
    runP t recs s (p ++ q) = runP t recs (runP t recs s p) q := by
  induction p generalizing s with
  | nil => rfl
  | cons e es ih => simp [runP, ih]

theorem totCount_append (p q : List Event) :
    totCount (p ++ q) = totCount p + totCount q := by
  induction p with
  | nil => simp [totCount]
  | cons e es ih => cases e <;> simp [totCount, ih] <;> omega

theorem ssCount_append (t : Int) (recs : List Record) (s : PairState)
    (p q : List Event) :
    ssCount t recs s (p ++ q)
      = ssCount t recs s p + ssCount t recs (runP t recs s p) q := by
  induction p generalizing s with
  | nil => simp [ssCount, runP]
  | cons e es ih => cases e <;> simp [ssCount, runP, ih] <;> omega

theorem stepW_resolve_fst (t : Int) (recs : List Record) (s : PairState) :
    (stepW t recs s Event.resolve).1
      = ⟨some (s.hits.getD 0 + 1),
          s.cached || stepWrites t recs s Event.resolve⟩ := rfl

theorem stepW_expire_fst (t : Int) (recs : List Record) (s : PairState) :
    (stepW t recs s Event.expire).1 = ⟨s.hits, false⟩ := rfl

theorem stepWrites_expire (t : Int) (recs : List Record) (s : PairState) :
    stepWrites t recs s Event.expire = false := rfl

theorem stepWrites_resolve_eq (t : Int) (recs : List Record) (s : PairState) :
    stepWrites t recs s Event.resolve
      = (!s.cached && decide (t ≤ s.hits.getD 0 + 1) && !recs.isEmpty) := by
  have hkey : stepWrites t recs s Event.resolve
      = writesCache (updateMetric (policyEnv t recs (s.hits.getD 0 + 1))
          "" "" s.cached) := rfl
  rw [hkey]
  unfold updateMetric policyEnv
  by_cases hlt : s.hits.getD 0 + 1 < t
  · have hng : ¬ t ≤ s.hits.getD 0 + 1 := by omega
    simp [hlt, hng, writesCache, Effect.isCacheSet]
  · have hle : t ≤ s.hits.getD 0 + 1 := by omega
    cases hc : s.cached with
    | true => simp [hlt, hle, writesCache, Effect.isCacheSet]
    | false =>
      by_cases hnil : recs.length = 0
      · have hemp : recs.isEmpty = true := by
          rw [List.isEmpty_iff]
          exact List.length_eq_zero.mp hnil
        simp [hlt, hle, hnil, hemp, writesCache, Effect.isCacheSet]
      · have hemp : recs.isEmpty = false := by
          rcases List.isEmpty_iff.mpr with _
          cases h : recs.isEmpty
          · rfl
          · exact absurd (congrArg List.length (List.isEmpty_iff.mp h))
              (by simpa using hnil)
        simp [hlt, hle, hnil, hemp, writesCache, Effect.isCacheSet]

theorem stepWrites_resolve_iff (t : Int) (recs : List Record) (s : PairState) :
    stepWrites t recs s Event.resolve = true ↔
      s.cached = false ∧ t ≤ s.hits.getD 0 + 1 ∧ recs ≠ [] := by
  rw [stepWrites_resolve_eq]
  simp [List.isEmpty_iff]
  tauto

theorem runP_hits (t : Int) (recs : List Record) (p : List Event) :
    (runP t recs initState p).hits
      = if totCount p = 0 then none else some (totCount p : Int) := by
  induction p using List.reverseRecOn with
  | nil => rfl
  | append_singleton p e ih =>
    rw [runP_append, runP_singleton]
    cases e with
    | resolve =>
      rw [stepW_resolve_fst, totCount_append]
      by_cases h0 : totCount p = 0
      · simp [ih, h0, totCount]
      · simp [ih, h0, totCount]
    | expire =>
      rw [stepW_expire_fst, totCount_append]
      simpa [totCount] using ih

theorem runP_hits_getD (t : Int) (recs : List Record) (p : List Event) :
    (runP t recs initState p).hits.getD 0 = (totCount p : Int) := by
  rw [runP_hits]
  by_cases h0 : totCount p = 0 <;> simp [h0]

theorem cached_persists (t : Int) (recs : List Record) (q : List Event)
    (s : PairState) (hc : s.cached = true) (hq : Event.expire ∉ q) :
    (runP t recs s q).cached = true := by
  induction q generalizing s with
  | nil => exact hc
  | cons e es ih =>
    cases e with
    | resolve =>
      have hstep : runP t recs s (Event.resolve :: es)
          = runP t recs (stepW t recs s Event.resolve).1 es := rfl
      rw [hstep]
      refine ih _ ?_ ?_
      · rw [stepW_resolve_fst]
        simp [hc]
      · intro hmem
        exact hq (List.mem_cons_of_mem _ hmem)
    | expire => exact absurd (List.mem_cons_self _ _) hq

theorem no_write_while_cached (t : Int) (recs : List Record) (s : PairState)
    (hc : s.cached = true) (e : Event) : stepWrites t recs s e = false := by
  cases e with
  | expire => rfl
  | resolve =>
    rw [stepWrites_resolve_eq, hc]
    rfl

theorem runP_no_expire_form (t : Int) (recs : List Record)
    (ht : 0 < t) (hr : recs ≠ []) (p : List Event)
    (hp : Event.expire ∉ p) :
    runP t recs initState p
      = ⟨if totCount p = 0 then none else some (totCount p : Int),
          decide (t ≤ (totCount p : Int))⟩ := by
  induction p using List.reverseRecOn with
  | nil =>
    have hd : decide (t ≤ ((totCount [] : Nat) : Int)) = false := by
      simp [totCount]
      omega
    rw [hd]
    rfl
  | append_singleton p e ih =>
    have hp' : Event.expire ∉ p := fun hmem =>
      hp (List.mem_append_left _ hmem)
    have he : e = Event.resolve := by
      cases e with
      | resolve => rfl
      | expire => exact absurd (List.mem_append_right _ (by simp)) hp
    subst he
    have hform := ih hp'
    rw [runP_append, runP_singleton, stepW_resolve_fst, hform]
    rw [totCount_append]
    have htot : totCount [Event.resolve] = 1 := rfl
    rw [htot]
    have hgd : (PairState.mk
        (if totCount p = 0 then none else some (totCount p : Int))
        (decide (t ≤ (totCount p : Int)))).hits.getD 0
          = (totCount p : Int) := by
      by_cases h0 : totCount p = 0 <;> simp [h0]
    rw [hgd]
    have hw : stepWrites t recs
        ⟨if totCount p = 0 then none else some (totCount p : Int),
          decide (t ≤ (totCount p : Int))⟩ Event.resolve
        = (!(decide (t ≤ (totCount p : Int)))
            && decide (t ≤ (totCount p : Int) + 1) && !recs.isEmpty) := by
      rw [stepWrites_resolve_eq]
      rw [hgd]
    rw [hw]
    have hemp : recs.isEmpty = false := by
      cases h : recs.isEmpty
      · rfl
      · exact absurd (List.isEmpty_iff.mp h) hr
    rw [hemp]
    by_cases hle : t ≤ (totCount p : Int)
    · have hle1 : t ≤ (totCount p : Int) + 1 := by omega
      push_cast
      simp [hle, hle1]
    · by_cases hle1 : t ≤ (totCount p : Int) + 1
      · push_cast
        simp [hle, hle1]
      · push_cast
        simp [hle, hle1]

theorem runP_invariant (t : Int) (recs : List Record) (p : List Event) :
    ((runP t recs initState p).cached = true →
        t ≤ (ssCount t recs initState p : Int))
      ∧ (ssCount t recs initState p = totCount p
          ∨ t ≤ (ssCount t recs initState p : Int)) := by
  induction p using List.reverseRecOn with
  | nil =>
    constructor
    · intro h
      exact absurd h (by simp [runP, initState])
    · left
      rfl
  | append_singleton p e ih =>
    have hrun := runP_append t recs initState p [e]
    have hss := ssCount_append t recs initState p [e]
    have htot := totCount_append p [e]
    cases e with
    | expire =>
      have h1 : ssCount t recs (runP t recs initState p) [Event.expire] = 0 := rfl
      have h2 : totCount [Event.expire] = 0 := rfl
      constructor
      · intro h
        rw [hrun, runP_singleton, stepW_expire_fst] at h
        simp at h
      · rw [hss, htot, h1, h2]
        rcases ih.2 with h | h
        · left
          omega
        · right
          push_cast
          omega
    | resolve =>
      have h2 : totCount [Event.resolve] = 1 := rfl
      have h1 : ssCount t recs (runP t recs initState p) [Event.resolve]
          = if (runP t recs initState p).cached then 0 else 1 := by
        simp [ssCount]
      constructor
      · intro h
        rw [hrun, runP_singleton, stepW_resolve_fst] at h
        simp at h
        rw [hss, h1]
        cases hc : (runP t recs initState p).cached with
        | true =>
          have := ih.1 hc
          simp [hc]
          push_cast
          omega
        | false =>
          have hw : stepWrites t recs (runP t recs initState p)
              Event.resolve = true := by
            rcases h with h | h
            · exact absurd hc (by simp [h])
            · exact h
          have hiff := (stepWrites_resolve_iff t recs _).mp hw
          have hle := hiff.2.1
          rw [runP_hits_getD] at hle
          simp [hc]
          rcases ih.2 with hih | hih
          · push_cast
            omega
          · push_cast
            omega
      · rw [hss, htot, h1, h2]
        cases hc : (runP t recs initState p).cached with
        | true =>
          have := ih.1 hc
          right
          simp
          push_cast
          omega
        | false =>
          simp
          rcases ih.2 with hih | hih
          · left
            omega
          · right
            push_cast
            omega

/- ------------------------------------------------------------------ -/
/- C2                                                                  -/
/- ------------------------------------------------------------------ -/

/-- C2: starting from a cold pair (no counter row, no cache entry), any
event that writes the cache is a resolution served from the store (the
pair is uncached when it arrives) and at that point the pair has
accumulated at least `t` resolutions that were not served from the cache;
if no expiry happened yet, the writing resolution is exactly the
`t`-th resolution (the threshold-crossing one); and after a write no
further write happens before an expiry occurs. -/
theorem promotion_policy_cold_pair (t : Int) (recs : List Record)
    (ht : 0 < t) (hr : recs ≠ []) (p : List Event) (e : Event)
    (hw : stepWrites t recs (runP t recs initState p) e = true) :
    (e = Event.resolve ∧ (runP t recs initState p).cached = false
        ∧ t ≤ (ssCount t recs initState (p ++ [e]) : Int))
      ∧ (Event.expire ∉ p → (totCount (p ++ [e]) : Int) = t)
      ∧ ∀ (q : List Event) (f : Event), Event.expire ∉ q →
          stepWrites t recs (runP t recs initState ((p ++ [e]) ++ q)) f
            = false := by
  have he : e = Event.resolve := by
    cases e with
    | resolve => rfl
    | expire => exact absurd hw (by rw [stepWrites_expire]; simp)
  subst he
  have hiff := (stepWrites_resolve_iff t recs _).mp hw
  have hcached_post :
      (runP t recs initState (p ++ [Event.resolve])).cached = true := by
    rw [runP_append, runP_singleton, stepW_resolve_fst]
    simp [hiff.1, hw]
  refine ⟨⟨rfl, hiff.1, ?_⟩, ?_, ?_⟩
  · exact (runP_invariant t recs (p ++ [Event.resolve])).1 hcached_post
  · intro hnp
    have hform := runP_no_expire_form t recs ht hr p hnp
    have h1 : ¬ t ≤ (totCount p : Int) := by
      have hx := hiff.1
      rw [hform] at hx
      simpa using hx
    have h2 : t ≤ (totCount p : Int) + 1 := by
      have hx := hiff.2.1
      rw [runP_hits_getD] at hx
      exact hx
    rw [totCount_append]
    have h3 : totCount [Event.resolve] = 1 := rfl
    rw [h3]
    push_cast
    omega
  · intro q f hq
    have hc : (runP t recs initState ((p ++ [Event.resolve]) ++ q)).cached
        = true := by
      rw [runP_append]
      exact cached_persists t recs q _ hcached_post hq
    exact no_write_while_cached t recs _ hc f

/-- C2 witness: with threshold 5 and a nonempty store row set, the fifth
resolution from the cold state performs the cache write, at which point
exactly five store-served resolutions have accumulated. -/
theorem promotion_policy_cold_pair_witness :
    (0 : Int) < 5
      ∧ stepWrites 5 exTable (runP 5 exTable initState
          [Event.resolve, Event.resolve, Event.resolve, Event.resolve])
          Event.resolve = true
      ∧ (totCount ([Event.resolve, Event.resolve, Event.resolve,
          Event.resolve] ++ [Event.resolve]) : Int) = 5
      ∧ (5 : Int) ≤ (ssCount 5 exTable initState
          ([Event.resolve, Event.resolve, Event.resolve, Event.resolve]
            ++ [Event.resolve]) : Int) := by
  have h := promotion_policy_cold_pair 5 exTable (by norm_num) (by decide)
    [Event.resolve, Event.resolve, Event.resolve, Event.resolve]
    Event.resolve (by decide)
  exact ⟨by norm_num, by decide, h.2.1 (by decide), h.1.2.2⟩

/- ------------------------------------------------------------------ -/
/- C5                                                                  -/
/- ------------------------------------------------------------------ -/

/-- C5: a promotion-policy run whose read-back counter is strictly below
the threshold performs exactly the increment and the read — no record
re-fetch and no cache write; and, in the pair's event model, any step
whose running resolution count stays below the threshold writes nothing,
so repeated store-served resolutions below the threshold never cause a
cache write. -/
theorem below_threshold_no_cache_write :
    (∀ (menv : MetricEnv) (d ty : String) (served : Bool) (h : Int),
        menv.getHits = .ok h → h < menv.minHits →
        updateMetric menv d ty served
            = [Effect.incrMetric d ty, Effect.readHits d ty]
          ∧ writesCache (updateMetric menv d ty served) = false)
      ∧ ∀ (t : Int) (recs : List Record) (p : List Event) (e : Event),
          (totCount (p ++ [e]) : Int) < t →
          stepWrites t recs (runP t recs initState p) e = false := by
  constructor
  · intro menv d ty served h hh hlt
    have hb := updateMetric_below_threshold menv d ty served h hh hlt
    rw [hb]
    exact ⟨rfl, rfl⟩
  · intro t recs p e hlt
    cases e with
    | expire => rfl
    | resolve =>
      cases hwv : stepWrites t recs (runP t recs initState p) Event.resolve
      · rfl
      · exfalso
        have hiff := (stepWrites_resolve_iff t recs _).mp hwv
        have h2 := hiff.2.1
        rw [runP_hits_getD] at h2
        rw [totCount_append] at hlt
        have h3 : totCount [Event.resolve] = 1 := rfl
        rw [h3] at hlt
        push_cast at hlt
        omega

/-- C5 witness: a run reading back 3 hits against threshold 5 is
counter-only, and the third resolution of a cold pair with threshold 5
writes nothing. -/
theorem below_threshold_no_cache_write_witness :
    (MetricEnv.mk (.ok 3) 5 (.ok exTable)).getHits = .ok 3
      ∧ (3 : Int) < (MetricEnv.mk (.ok 3) 5 (.ok exTable)).minHits
      ∧ writesCache (updateMetric ⟨.ok 3, 5, .ok exTable⟩
          "example.com" "A" false) = false
      ∧ (totCount ([Event.resolve, Event.resolve] ++ [Event.resolve]) : Int) < 5
      ∧ stepWrites 5 exTable (runP 5 exTable initState
          [Event.resolve, Event.resolve]) Event.resolve = false := by
  refine ⟨rfl, by norm_num, ?_, by decide, ?_⟩
  · exact (below_threshold_no_cache_write.1 ⟨.ok 3, 5, .ok exTable⟩
      "example.com" "A" false 3 rfl (by norm_num)).2
  · exact below_threshold_no_cache_write.2 5 exTable
      [Event.resolve, Event.resolve] Event.resolve (by decide)

/- ------------------------------------------------------------------ -/
/- Upsert lemmas.                                                      -/
/- ------------------------------------------------------------------ -/

theorem sameTriple_iff (a b : Record) :
    sameTriple a b = true ↔
      a.domain = b.domain ∧ a.qtype = b.qtype ∧ a.value = b.value := by
  simp [sameTriple, and_assoc]

theorem sameTriple_refl (a : Record) : sameTriple a a = true := by
  simp [sameTriple_iff]

theorem sameTriple_symm {a b : Record} (h : sameTriple a b = true) :
    sameTriple b a = true := by
  rw [sameTriple_iff] at h ⊢
  exact ⟨h.1.symm, h.2.1.symm, h.2.2.symm⟩

theorem sameTriple_trans {a b c : Record} (h1 : sameTriple a b = true)
    (h2 : sameTriple b c = true) : sameTriple a c = true := by
  rw [sameTriple_iff] at h1 h2 ⊢
  exact ⟨h1.1.trans h2.1, h1.2.1.trans h2.2.1, h1.2.2.trans h2.2.2⟩

theorem sameTriple_congr {r r0 : Record} (h : sameTriple r r0 = true)
    (x : Record) : sameTriple x r = sameTriple x r0 := by
  cases h1 : sameTriple x r with
  | true => exact (sameTriple_trans h1 h).symm
  | false =>
    cases h2 : sameTriple x r0 with
    | false => rfl
    | true =>
      have hx : sameTriple x r = true :=
        sameTriple_trans h2 (sameTriple_symm h)
      rw [h1] at hx
      exact absurd hx (by simp)

theorem sameTriple_set_ttl (x w : Record) (n : Int) :
    sameTriple { x with ttl := n } w = sameTriple x w := by
  simp [sameTriple]

theorem addRecord_unique (tbl : List Record) (r : Record)
    (hU : UniqueTriples tbl) : UniqueTriples (addRecord tbl r) := by
  unfold addRecord
  by_cases ha : tbl.any (fun x => sameTriple x r) = true
  · rw [if_pos ha]
    unfold UniqueTriples at hU ⊢
    refine List.Pairwise.map _ ?_ hU
    intro a b hab
    by_cases h1 : sameTriple a r = true
    · by_cases h2 : sameTriple b r = true
      · exact absurd (sameTriple_trans h1 (sameTriple_symm h2))
          (by simp [hab])
      · simp only [if_pos h1, if_neg h2]
        rw [sameTriple_set_ttl]
        exact hab
    · by_cases h2 : sameTriple b r = true
      · simp only [if_neg h1, if_pos h2]
        cases hx : sameTriple a { b with ttl := r.ttl } with
        | false => rfl
        | true =>
          have : sameTriple a b = true := by
            have hb : sameTriple { b with ttl := r.ttl } b = true := by
              rw [sameTriple_set_ttl]
              exact sameTriple_refl b
            exact sameTriple_trans hx hb
          exact absurd this (by simp [hab])
      · simp only [if_neg h1, if_neg h2]
        exact hab
  · rw [if_neg ha]
    unfold UniqueTriples at hU ⊢
    rw [List.pairwise_append]
    refine ⟨hU, by simp, ?_⟩
    intro a hamem b hbmem
    simp at hbmem
    have ha' : tbl.any (fun x => sameTriple x r) = false := by
      simpa using ha
    have hx := List.any_eq_false.mp ha' a hamem
    rw [hbmem]
    simpa using hx

theorem filter_triple_of_unique (tbl : List Record) (r : Record)
    (hU : UniqueTriples tbl)
    (ha : tbl.any (fun x => sameTriple x r) = true) :
    (tbl.filter (fun x => sameTriple x r)).length = 1 := by
  induction tbl with
  | nil => simp at ha
  | cons x xs ih =>
    rw [UniqueTriples, List.pairwise_cons] at hU
    by_cases hx : sameTriple x r = true
    · have hnone : ∀ y ∈ xs, sameTriple y r = false := by
        intro y hy
        cases hs : sameTriple y r with
        | false => rfl
        | true =>
          have hxy : sameTriple x y = true :=
            sameTriple_trans hx (sameTriple_symm hs)
          rw [hU.1 y hy] at hxy
          exact absurd hxy (by simp)
      have hfilter : xs.filter (fun y => sameTriple y r) = [] := by
        rw [List.filter_eq_nil_iff]
        intro y hy
        simp [hnone y hy]
      simp [List.filter_cons, hx, hfilter]
    · have hx' : sameTriple x r = false := by
        cases hs : sameTriple x r
        · rfl
        · exact absurd hs hx
      have ha' : xs.any (fun y => sameTriple y r) = true := by
        rw [List.any_cons, hx'] at ha
        simpa using ha
      simp only [List.filter_cons, hx']
      exact ih hU.2 ha'

theorem addRecord_count (tbl : List Record) (r : Record)
    (hU : UniqueTriples tbl) :
    ((addRecord tbl r).filter (fun x => sameTriple x r)).length = 1 := by
  unfold addRecord
  by_cases ha : tbl.any (fun x => sameTriple x r) = true
  · rw [if_pos ha, List.filter_map, List.length_map]
    have hcong : ∀ x ∈ tbl,
        ((fun y => sameTriple y r) ∘
          (fun x => if sameTriple x r then { x with ttl := r.ttl } else x)) x
        = sameTriple x r := by
      intro x _
      by_cases h1 : sameTriple x r = true
      · simp only [Function.comp, if_pos h1, sameTriple_set_ttl]
      · simp only [Function.comp, if_neg h1]
    rw [List.filter_congr hcong]
    exact filter_triple_of_unique tbl r hU ha
  · rw [if_neg ha, List.filter_append]
    have h1 : tbl.filter (fun x => sameTriple x r) = [] := by
      rw [List.filter_eq_nil_iff]
      intro y hy
      have ha' : tbl.any (fun x => sameTriple x r) = false := by
        simpa using ha
      simp [List.any_eq_false.mp ha' y hy]
    rw [h1]
    simp [List.filter_cons, sameTriple_refl]

theorem addRecord_ttl (tbl : List Record) (r x : Record)
    (hx : x ∈ addRecord tbl r) (hs : sameTriple x r = true) :
    x.ttl = r.ttl := by
  unfold addRecord at hx
  by_cases ha : tbl.any (fun y => sameTriple y r) = true
  · rw [if_pos ha] at hx
    rcases List.mem_map.mp hx with ⟨y, hy, hxy⟩
    by_cases h1 : sameTriple y r = true
    · rw [if_pos h1] at hxy
      rw [← hxy]
    · rw [if_neg h1] at hxy
      rw [← hxy] at hs
      exact absurd hs h1
  · rw [if_neg ha] at hx
    rcases List.mem_append.mp hx with hmem | hmem
    · have ha' : tbl.any (fun y => sameTriple y r) = false := by
        simpa using ha
      exact absurd hs (List.any_eq_false.mp ha' x hmem)
    · simp at hmem
      rw [hmem]

/- ------------------------------------------------------------------ -/
/- C9                                                                  -/
/- ------------------------------------------------------------------ -/

/-- C9: the record upsert is idempotent on the (domain, qtype, value)
triple.  Starting from any table satisfying the uniqueness constraint,
after any nonempty sequence of upserts of records sharing one triple the
table still satisfies the constraint, holds exactly one row with that
triple, and that row carries the TTL of the last write. -/
theorem record_upsert_idempotent (tbl : List Record) (hU : UniqueTriples tbl)
    (r0 : Record) (rs : List Record) (hne : rs ≠ [])
    (hall : ∀ r ∈ rs, sameTriple r r0 = true) :
    UniqueTriples (rs.foldl addRecord tbl)
      ∧ ((rs.foldl addRecord tbl).filter
          (fun x => sameTriple x r0)).length = 1
      ∧ ∀ x ∈ rs.foldl addRecord tbl, sameTriple x r0 = true →
          x.ttl = (rs.getLast hne).ttl := by
  induction rs generalizing tbl with
  | nil => exact absurd rfl hne
  | cons r rs' ih =>
    have hr0 : sameTriple r r0 = true := hall r (by simp)
    cases rs' with
    | nil =>
      have hfold : ([r] : List Record).foldl addRecord tbl
          = addRecord tbl r := rfl
      rw [hfold]
      refine ⟨addRecord_unique tbl r hU, ?_, ?_⟩
      · have hcong : ∀ x ∈ addRecord tbl r,
            sameTriple x r0 = sameTriple x r := by
          intro x _
          exact (sameTriple_congr hr0 x).symm
        rw [List.filter_congr hcong]
        exact addRecord_count tbl r hU
      · intro x hx hxs
        have hxr : sameTriple x r = true := by
          rw [sameTriple_congr hr0 x]
          exact hxs
        exact addRecord_ttl tbl r x hx hxr
    | cons r1 rs'' =>
      have hfold : ((r :: r1 :: rs'') : List Record).foldl addRecord tbl
          = (r1 :: rs'').foldl addRecord (addRecord tbl r) := rfl
      have hlast : ((r :: r1 :: rs'') : List Record).getLast hne
          = (r1 :: rs'').getLast (by simp) := rfl
      rw [hfold, hlast]
      exact ih (addRecord tbl r) (addRecord_unique tbl r hU) (by simp)
        (fun r' h' => hall r' (List.mem_cons_of_mem r h'))

/-- C9 witness: two upserts of the same triple with different TTLs leave
one row carrying the last TTL. -/
theorem record_upsert_idempotent_witness :
    UniqueTriples exTable
      ∧ (List.filter
          (fun x => sameTriple x ⟨"example.com", "A", 300, "1.2.3.4"⟩)
          (List.foldl addRecord exTable
            [⟨"example.com", "A", 600, "1.2.3.4"⟩,
             ⟨"example.com", "A", 900, "1.2.3.4"⟩])).length = 1
      ∧ ∀ x ∈ List.foldl addRecord exTable
            [⟨"example.com", "A", 600, "1.2.3.4"⟩,
             ⟨"example.com", "A", 900, "1.2.3.4"⟩],
          sameTriple x ⟨"example.com", "A", 300, "1.2.3.4"⟩ = true →
          x.ttl = (900 : Int) := by
  have hU : UniqueTriples exTable := by
    unfold UniqueTriples exTable
    simp
  have h := record_upsert_idempotent exTable hU
    ⟨"example.com", "A", 300, "1.2.3.4"⟩
    [⟨"example.com", "A", 600, "1.2.3.4"⟩,
      ⟨"example.com", "A", 900, "1.2.3.4"⟩]
    (by simp) (by decide)
  exact ⟨hU, h.2.1, h.2.2⟩

end GoDNS
